import Mathlib

/-!
Verification of the NetworkFirewall firewall resource
(internal/service/networkfirewall firewall.go, given as src/unnamed/part_000).

The development shallowly embeds the resource's CRUD handlers:

* the subnet-mapping differ (`expandSubnetMappings`, `expandSubnetMappingIDs`,
  `subnetMappingsHash`, `subnetMappingsDiff`);
* the update pass `resourceFirewallUpdate`, modelled as a deterministic
  function of the Terraform plan data and of an environment (`Conn`) that
  supplies the remote API's response to every call the pass can issue; the
  pass additionally returns the ordered trace of remote calls it issued,
  each trace event recording the concurrency token the call carried and
  the result the code consumed;
* the read/delete handlers and the status probe (`FindFirewallByARN`,
  `statusFirewall`, `resourceFirewallRead`, `resourceFirewallDelete`);
* the three `retry.StateChangeConf` configurations built by
  `waitFirewallCreated`, `waitFirewallUpdated` and `waitFirewallDeleted`
  (pending statuses, target statuses, initial delay).

Remote behaviour (which token a mutation returns, whether a call fails) is
abstracted into the `Conn` environment; everything the Go code itself does
with those responses is embedded faithfully.
-/

namespace NetworkFirewall

/-- Models aws.StringValue: dereference an optional string, mapping nil to "". -/
def stringValue : Option String → String
  | some s => s
  | none => ""

/-- A raw AWS API error, as inspected by the tfawserr helpers: an error code
and a message. -/
structure AWSError where
  code : String
  message : String
deriving DecidableEq

/-- networkfirewall.ErrCodeResourceNotFoundException. -/
def ErrCodeResourceNotFoundException : String := "ResourceNotFoundException"

/-- networkfirewall.ErrCodeInvalidRequestException. -/
def ErrCodeInvalidRequestException : String := "InvalidRequestException"

/-- networkfirewall.FirewallStatusValueProvisioning. -/
def FirewallStatusValueProvisioning : String := "PROVISIONING"

/-- networkfirewall.FirewallStatusValueReady. -/
def FirewallStatusValueReady : String := "READY"

/-- networkfirewall.FirewallStatusValueDeleting. -/
def FirewallStatusValueDeleting : String := "DELETING"

/-- Models tfawserr.ErrCodeEquals: the error is non-nil and its code equals
the given code. -/
def errCodeEquals : Option AWSError → String → Bool
  | some e, code => decide (e.code = code)
  | none, _ => false

/-- Substring test used by tfawserr.ErrMessageContains. -/
def containsSubstr (s sub : String) : Bool := decide (sub.data <:+: s.data)

/-- Models tfawserr.ErrMessageContains: the error's code equals the given code
and its message contains the given substring. -/
def errMessageContains (e : AWSError) (code msg : String) : Bool :=
  decide (e.code = code) && containsSubstr e.message msg

/-! ## Subnet mappings and the differ -/

/-- One element of the `subnet_mapping` attribute as Terraform holds it: the
`subnet_id` key (Required) and the `ip_address_type` key (Optional+Computed,
held as "" when absent). -/
structure SubnetMappingAttrs where
  subnetId : String
  ipAddressType : String
deriving DecidableEq

/-- networkfirewall.SubnetMapping: SubnetId is always set by the expansion,
IPAddressType only when the attribute value is a non-empty string. -/
structure SubnetMapping where
  subnetId : String
  ipAddressType : Option String
deriving DecidableEq

/-- Models expandSubnetMappings: build the API SubnetMapping for every element,
setting IPAddressType only for a non-empty attribute value. -/
def expandSubnetMappings (l : List SubnetMappingAttrs) : List SubnetMapping :=
  l.map fun tfMap =>
    { subnetId := tfMap.subnetId
      ipAddressType :=
        if tfMap.ipAddressType ≠ "" then some tfMap.ipAddressType else none }

/-- Models expandSubnetMappingIDs: collect the non-empty subnet IDs, in order. -/
def expandSubnetMappingIDs (l : List SubnetMappingAttrs) : List String :=
  (l.filter fun tfMap => decide (tfMap.subnetId ≠ "")).map (·.subnetId)

/-- Models subnetMappingsHash: the fingerprint buffer written for one element,
"subnetId-" followed by "ipAddressType-".  The Go code feeds this buffer to
create.StringHashcode (a CRC); hash collisions of the CRC are abstracted away
and the buffer itself is used as the fingerprint. -/
def subnetMappingsHash (v : SubnetMappingAttrs) : String :=
  v.subnetId ++ "-" ++ v.ipAddressType ++ "-"

/-- Models subnetMappingsDiff: with an empty old set everything is added, with
an empty new set every old ID is removed; otherwise old elements whose
fingerprint is absent from the new set are removed (IDs only) and new elements
absent from the old set (whole-element comparison, the schema set's identity)
are added in full.  Terraform sets are modelled as duplicate-free lists in the
set's iteration order. -/
def subnetMappingsDiff (old new : List SubnetMappingAttrs) :
    List String × List SubnetMapping :=
  if old.length = 0 then
    ([], expandSubnetMappings new)
  else if new.length = 0 then
    (expandSubnetMappingIDs old, [])
  else
    let toRemove := old.filter fun x =>
      !(new.any fun y => decide (subnetMappingsHash y = subnetMappingsHash x))
    let toAdd := new.filter fun x => !(old.any fun y => decide (y = x))
    (expandSubnetMappingIDs toRemove, expandSubnetMappings toAdd)

/-- IPAddressType_Values of the AWS SDK, the vocabulary the schema's
ValidateFunc admits for `ip_address_type`. -/
def ipAddressTypeValues : List String := ["DUALSTACK", "IPV4", "IPV6"]

/-- An `ip_address_type` attribute value the schema admits: unset (held as "")
or one of the SDK's enumerated values. -/
def validIPAddressType (s : String) : Prop :=
  s = "" ∨ s ∈ ipAddressTypeValues

instance : DecidablePred validIPAddressType := fun s => by
  unfold validIPAddressType
  infer_instance

/-! ## The update pass -/

/-- Result of a scalar mutation call or of waitFirewallUpdated: a fresh
update token, or an error. -/
inductive TokenResult
  | ok (token : String)
  | err (e : AWSError)
deriving DecidableEq

/-- Result of AssociateSubnets / DisassociateSubnets as the code consumes it:
the response value is discarded, only the error is looked at. -/
inductive UnitResult
  | ok
  | err (e : AWSError)
deriving DecidableEq

/-- The six token-returning mutations issued for scalar-level fields, in the
source's textual order. -/
inductive ScalarMutKind
  | deleteProtection
  | description
  | encryptionConfiguration
  | policyChangeProtection
  | associatePolicy
  | subnetChangeProtection
deriving DecidableEq

/-- One remote interaction of the update pass, recording the token the call
carried and the result the code consumed. -/
inductive Event
  | scalarMut (kind : ScalarMutKind) (token : String) (result : TokenResult)
  | associateSubnets (token : String) (mappings : List SubnetMapping)
      (result : UnitResult)
  | disassociateSubnets (token : String) (subnetIds : List String)
      (result : UnitResult)
  | waitUpdated (result : TokenResult)
  | finalRead
deriving DecidableEq

/-- The remote environment of one update pass: the response to each possible
call.  Scalar responses are keyed by mutation kind and carried token;
waitFirewallUpdated responses are keyed by how many waits were already
performed in the pass. -/
structure Conn where
  scalarResp : ScalarMutKind → String → TokenResult
  associateSubnetsResp : String → List SubnetMapping → UnitResult
  disassociateSubnetsResp : String → List String → UnitResult
  waitUpdatedResp : Nat → TokenResult

/-- One attribute in the plan: Terraform's (old, new) pair; d.Get returns the
new value, d.GetChange returns both. -/
structure PlanField (α : Type) where
  old : α
  new : α
deriving DecidableEq

/-- Models d.HasChange for a field. -/
def PlanField.hasChange {α : Type} [DecidableEq α] (f : PlanField α) : Bool :=
  decide (f.old ≠ f.new)

/-- The `encryption_configuration` attribute value, carried opaquely: its
schema and expansion (encryptionConfigurationSchema,
expandEncryptionConfiguration) live outside the given source and the update
pass only passes the value through. -/
abbrev EncryptionConfig := List (String × String)

/-- The plan data the update handler reads: resource id, the stored
update_token, and the (old, new) pair of every updatable attribute. -/
structure FirewallPlan where
  id : String
  updateToken : String
  deleteProtection : PlanField Bool
  description : PlanField String
  encryptionConfiguration : PlanField EncryptionConfig
  firewallPolicyChangeProtection : PlanField Bool
  firewallPolicyArn : PlanField String
  subnetChangeProtection : PlanField Bool
  subnetMapping : PlanField (List SubnetMappingAttrs)

/-- Intermediate state of the update pass after the scalar steps: the current
update token, or the error that aborted the pass. -/
inductive UpdStep
  | ok (token : String)
  | fail (e : AWSError)
deriving DecidableEq

/-- One `if d.HasChange(...)` block of the scalar section of
resourceFirewallUpdate: when the field changed, issue the mutation with the
current token; on success carry the response token forward, on failure abort
the pass. -/
def thenScalar (conn : Conn) (kind : ScalarMutKind) (changed : Bool) :
    List Event × UpdStep → List Event × UpdStep
  | (tr, UpdStep.fail e) => (tr, UpdStep.fail e)
  | (tr, UpdStep.ok tok) =>
    if changed then
      match conn.scalarResp kind tok with
      | TokenResult.ok t' =>
          (tr ++ [Event.scalarMut kind tok (TokenResult.ok t')], UpdStep.ok t')
      | TokenResult.err e =>
          (tr ++ [Event.scalarMut kind tok (TokenResult.err e)], UpdStep.fail e)
    else (tr, UpdStep.ok tok)

/-- The `len(subnetsToRemove) > 0` block of resourceFirewallUpdate: issue
DisassociateSubnets with the current token; on success wait for the firewall
to settle; a failure whose code is InvalidRequestException with a message
containing "inaccessible" is swallowed, every other failure is surfaced. -/
def subnetRemoveStep (conn : Conn) (waitIdx : Nat) (subnetsToRemove : List String)
    (tr : List Event) (tok : String) : List Event × Option AWSError :=
  if subnetsToRemove.length ≠ 0 then
    match conn.disassociateSubnetsResp tok subnetsToRemove with
    | UnitResult.ok =>
      match conn.waitUpdatedResp waitIdx with
      | TokenResult.ok t2 =>
          (tr ++ [Event.disassociateSubnets tok subnetsToRemove UnitResult.ok,
            Event.waitUpdated (TokenResult.ok t2), Event.finalRead], none)
      | TokenResult.err e =>
          (tr ++ [Event.disassociateSubnets tok subnetsToRemove UnitResult.ok,
            Event.waitUpdated (TokenResult.err e)], some e)
    | UnitResult.err e =>
      if errMessageContains e ErrCodeInvalidRequestException "inaccessible" then
        (tr ++ [Event.disassociateSubnets tok subnetsToRemove (UnitResult.err e),
          Event.finalRead], none)
      else
        (tr ++ [Event.disassociateSubnets tok subnetsToRemove (UnitResult.err e)], some e)
  else
    (tr ++ [Event.finalRead], none)

/-- The `d.HasChange("subnet_mapping")` block of resourceFirewallUpdate: diff
the sets; when there are additions, issue AssociateSubnets with the current
token, discard its response value, wait for the firewall to settle and carry
the token re-read by that wait; then run the removal block. -/
def subnetStep (conn : Conn) (old new : List SubnetMappingAttrs)
    (tr : List Event) (tok : String) : List Event × Option AWSError :=
  match subnetMappingsDiff old new with
  | (subnetsToRemove, subnetsToAdd) =>
    if subnetsToAdd.length ≠ 0 then
      match conn.associateSubnetsResp tok subnetsToAdd with
      | UnitResult.err e =>
          (tr ++ [Event.associateSubnets tok subnetsToAdd (UnitResult.err e)], some e)
      | UnitResult.ok =>
        match conn.waitUpdatedResp 0 with
        | TokenResult.err e =>
            (tr ++ [Event.associateSubnets tok subnetsToAdd UnitResult.ok,
              Event.waitUpdated (TokenResult.err e)], some e)
        | TokenResult.ok t' =>
            subnetRemoveStep conn 1 subnetsToRemove
              (tr ++ [Event.associateSubnets tok subnetsToAdd UnitResult.ok,
                Event.waitUpdated (TokenResult.ok t')]) t'
    else
      subnetRemoveStep conn 0 subnetsToRemove tr tok

/-- The six scalar `if d.HasChange` blocks of resourceFirewallUpdate, in
source order, starting from the empty trace and the stored update_token. -/
def scalarPhase (conn : Conn) (d : FirewallPlan) : List Event × UpdStep :=
  thenScalar conn ScalarMutKind.subnetChangeProtection d.subnetChangeProtection.hasChange
    (thenScalar conn ScalarMutKind.associatePolicy d.firewallPolicyArn.hasChange
      (thenScalar conn ScalarMutKind.policyChangeProtection
        d.firewallPolicyChangeProtection.hasChange
        (thenScalar conn ScalarMutKind.encryptionConfiguration
          d.encryptionConfiguration.hasChange
          (thenScalar conn ScalarMutKind.description d.description.hasChange
            (thenScalar conn ScalarMutKind.deleteProtection d.deleteProtection.hasChange
              ([], UpdStep.ok d.updateToken))))))

/-- Models resourceFirewallUpdate: the six scalar `if d.HasChange` blocks in
source order, then the subnet_mapping block, then the final read.  Returns
the ordered trace of remote interactions and the error surfaced by the pass,
if any. -/
def resourceFirewallUpdate (conn : Conn) (d : FirewallPlan) :
    List Event × Option AWSError :=
  match scalarPhase conn d with
  | (tr, UpdStep.fail e) => (tr, some e)
  | (tr, UpdStep.ok tok) =>
    if d.subnetMapping.hasChange then
      subnetStep conn d.subnetMapping.old d.subnetMapping.new tr tok
    else
      (tr ++ [Event.finalRead], none)

/-! ## Observers over update traces -/

/-- The token held after processing one event: a successful scalar mutation
or a successful wait replaces the held token, every other event leaves it. -/
def heldNext (held : String) : Event → String
  | Event.scalarMut _ _ (TokenResult.ok t') => t'
  | Event.waitUpdated (TokenResult.ok t') => t'
  | _ => held

/-- The token held after a whole trace, starting from the stored token. -/
def heldAfter (init : String) (tr : List Event) : String :=
  tr.foldl heldNext init

/-- Whether one event respects the held token: a mutation call must carry
exactly the held token; waits and the final read carry none. -/
def evTokenOk (held : String) : Event → Bool
  | Event.scalarMut _ t _ => decide (t = held)
  | Event.associateSubnets t _ _ => decide (t = held)
  | Event.disassociateSubnets t _ _ => decide (t = held)
  | _ => true

/-- The token-threading discipline over a trace: every mutation call carries
exactly the token held at its position, where the held token starts as the
stored update_token and is replaced by each successful scalar mutation's
response token and by each successful wait's re-read token. -/
def disciplined : String → List Event → Bool
  | _, [] => true
  | held, e :: rest => evTokenOk held e && disciplined (heldNext held e) rest

/-- The token carried by a mutation event (none for waits and the read). -/
def mutToken : Event → Option String
  | Event.scalarMut _ t _ => some t
  | Event.associateSubnets t _ _ => some t
  | Event.disassociateSubnets t _ _ => some t
  | _ => none

/-- The tokens carried by the mutation calls of a trace, in issue order. -/
def mutTokens (tr : List Event) : List String := tr.filterMap mutToken

/-- The fixed precedence rank of one scalar mutation kind, in source order. -/
def precedence : ScalarMutKind → Nat
  | ScalarMutKind.deleteProtection => 0
  | ScalarMutKind.description => 1
  | ScalarMutKind.encryptionConfiguration => 2
  | ScalarMutKind.policyChangeProtection => 3
  | ScalarMutKind.associatePolicy => 4
  | ScalarMutKind.subnetChangeProtection => 5

/-- The precedence rank of a mutation event (none for waits and the read):
scalar mutations rank 0..5 in source order, then AssociateSubnets, then
DisassociateSubnets. -/
def mutRank : Event → Option Nat
  | Event.scalarMut k _ _ => some (precedence k)
  | Event.associateSubnets _ _ _ => some 6
  | Event.disassociateSubnets _ _ _ => some 7
  | _ => none

/-- The precedence ranks of the mutation calls of a trace, in issue order. -/
def mutRanks (tr : List Event) : List Nat := tr.filterMap mutRank

/-- The error of a failed mutation event (none for successes, waits, read). -/
def evError : Event → Option AWSError
  | Event.scalarMut _ _ (TokenResult.err e) => some e
  | Event.associateSubnets _ _ (UnitResult.err e) => some e
  | Event.disassociateSubnets _ _ (UnitResult.err e) => some e
  | _ => none

/-- The one failure the pass swallows: a DisassociateSubnets failure whose
code is InvalidRequestException and whose message contains "inaccessible". -/
def isSwallowedRemoval : Event → Bool
  | Event.disassociateSubnets _ _ (UnitResult.err e) =>
      errMessageContains e ErrCodeInvalidRequestException "inaccessible"
  | _ => false

/-- Whether an event is one of the six scalar mutations. -/
def isScalarEv : Event → Bool
  | Event.scalarMut _ _ _ => true
  | _ => false

/-- A remote that issues fresh concurrency tokens, witnessed by a rank
function: every successful scalar mutation's response token strictly outranks
the token the call carried, and the token re-read by the first wait strictly
outranks the token a successful AssociateSubnets carried. -/
def ConnFresh (conn : Conn) (rank : String → Nat) : Prop :=
  (∀ k t t', conn.scalarResp k t = TokenResult.ok t' → rank t < rank t') ∧
  (∀ t ms, conn.associateSubnetsResp t ms = UnitResult.ok →
    ∀ t', conn.waitUpdatedResp 0 = TokenResult.ok t' → rank t < rank t')

/-! ## Wait configurations -/

/-- The parts of a retry.StateChangeConf the source sets: pending statuses,
target statuses, and the initial delay in seconds (0 when the source leaves
the Delay field unset). -/
structure StateChangeConf where
  pending : List String
  target : List String
  delaySeconds : Nat
deriving DecidableEq

/-- The StateChangeConf built by waitFirewallCreated. -/
def waitFirewallCreatedConf : StateChangeConf :=
  { pending := [FirewallStatusValueProvisioning]
    target := [FirewallStatusValueReady]
    delaySeconds := 0 }

/-- The StateChangeConf built by waitFirewallUpdated, with the 30 second
Delay the source adds for Associate/Disassociate calls that report READY
immediately instead of PROVISIONING. -/
def waitFirewallUpdatedConf : StateChangeConf :=
  { pending := [FirewallStatusValueProvisioning]
    target := [FirewallStatusValueReady]
    delaySeconds := 30 }

/-- The StateChangeConf built by waitFirewallDeleted: empty target set, the
firewall must disappear. -/
def waitFirewallDeletedConf : StateChangeConf :=
  { pending := [FirewallStatusValueDeleting]
    target := []
    delaySeconds := 0 }

/-! ## Describe, status probe, read, delete -/

/-- networkfirewall.Firewall, reduced to the one field the control flow can
inspect; the remaining attribute marshaling is out of scope. -/
structure Firewall where
  firewallArn : Option String
deriving DecidableEq

/-- networkfirewall.FirewallStatus, reduced to its Status field. -/
structure FirewallStatusO where
  status : Option String
deriving DecidableEq

/-- networkfirewall.DescribeFirewallOutput. -/
structure DescribeFirewallOutput where
  firewall : Option Firewall
  firewallStatus : Option FirewallStatusO
  updateToken : Option String
deriving DecidableEq

/-- The raw result of DescribeFirewallWithContext: a (possibly nil) output,
or an error. -/
inductive DescribeResult
  | ok (output : Option DescribeFirewallOutput)
  | err (e : AWSError)
deriving DecidableEq

/-- The result of FindFirewallByARN: the output, a retry.NotFoundError
wrapping a ResourceNotFoundException, an empty-result error, or any other
API error. -/
inductive FindResult
  | found (output : DescribeFirewallOutput)
  | notFound (e : AWSError)
  | emptyResult
  | apiError (e : AWSError)
deriving DecidableEq

/-- Models FindFirewallByARN: a ResourceNotFoundException becomes a
NotFoundError, any other error is passed through, and a nil output, nil
Firewall or nil FirewallStatus becomes an empty-result error. -/
def FindFirewallByARN (describe : String → DescribeResult) (arn : String) :
    FindResult :=
  match describe arn with
  | DescribeResult.err e =>
    if e.code = ErrCodeResourceNotFoundException then FindResult.notFound e
    else FindResult.apiError e
  | DescribeResult.ok none => FindResult.emptyResult
  | DescribeResult.ok (some output) =>
    if output.firewall.isNone || output.firewallStatus.isNone then
      FindResult.emptyResult
    else FindResult.found output

/-- Models tfresource.NotFound on a FindFirewallByARN result. -/
def tfresourceNotFound : FindResult → Bool
  | FindResult.notFound _ => true
  | _ => false

/-- The error component a status probe can report (the NotFound case is
mapped to a nil error by the probe). -/
inductive StatusProbeErr
  | emptyResult
  | apiError (e : AWSError)
deriving DecidableEq

/-- Models statusFirewall: a NotFound read becomes (nil, "", nil) — absence
with no error; any other error is reported; otherwise the output and its
FirewallStatus.Status string are reported. -/
def statusFirewall (describe : String → DescribeResult) (arn : String) :
    Option DescribeFirewallOutput × String × Option StatusProbeErr :=
  match FindFirewallByARN describe arn with
  | FindResult.notFound _ => (none, "", none)
  | FindResult.emptyResult => (none, "", some StatusProbeErr.emptyResult)
  | FindResult.apiError e => (none, "", some (StatusProbeErr.apiError e))
  | FindResult.found output =>
    (some output, stringValue (output.firewallStatus.bind FirewallStatusO.status), none)

/-- One step of the polling waiter. -/
inductive WaiterStep
  | succeeded (result : Option DescribeFirewallOutput)
  | polling
  | failed
deriving DecidableEq

/-- Modelled from the spec: the Waiter transition rule of spec section 4.3,
evaluated on one probe result.  The polling loop itself
(retry.StateChangeConf.WaitForStateContext) is library code outside the given
source: a probe error fails the wait; an absent object (nil result, nil
error) succeeds with a nil result when the target-status set is empty; a
status in the target set succeeds with the snapshot; a status in the pending
set keeps polling; any other status fails. -/
def waiterStep (pending target : List String)
    (probe : Option DescribeFirewallOutput × String × Option StatusProbeErr) :
    WaiterStep :=
  match probe with
  | (_, _, some _) => WaiterStep.failed
  | (none, _, none) =>
    if target = [] then WaiterStep.succeeded none else WaiterStep.polling
  | (some o, st, none) =>
    if st ∈ target then WaiterStep.succeeded (some o)
    else if st ∈ pending then WaiterStep.polling
    else WaiterStep.failed

/-- The observable outcome of resourceFirewallRead. -/
inductive ReadOutcome
  | removedFromState
  | failed (r : FindResult)
  | ok (output : DescribeFirewallOutput)
deriving DecidableEq

/-- Models resourceFirewallRead: a NotFound on a resource that is not newly
created clears the cached id and returns success (removedFromState); any
other error — or a NotFound on a newly created resource — is surfaced;
otherwise the attributes are set from the output. -/
def resourceFirewallRead (describe : String → DescribeResult)
    (isNewResource : Bool) (id : String) : ReadOutcome :=
  let r := FindFirewallByARN describe id
  if !isNewResource && tfresourceNotFound r then ReadOutcome.removedFromState
  else
    match r with
    | FindResult.found output => ReadOutcome.ok output
    | e => ReadOutcome.failed e

/-- The observable outcome of resourceFirewallDelete: whether
waitFirewallDeleted was invoked, and the error surfaced, if any. -/
structure DeleteResult where
  waited : Bool
  err : Option AWSError
deriving DecidableEq

/-- Models resourceFirewallDelete: a ResourceNotFoundException from the
delete call returns success without waiting; any other non-nil error is
surfaced without waiting; on success the handler waits for deletion and
surfaces the wait's error, if any. -/
def resourceFirewallDelete (deleteResp : Option AWSError) (waitResp : UnitResult) :
    DeleteResult :=
  if errCodeEquals deleteResp ErrCodeResourceNotFoundException then
    { waited := false, err := none }
  else
    match deleteResp with
    | some e => { waited := false, err := some e }
    | none =>
      match waitResp with
      | UnitResult.err e => { waited := true, err := some e }
      | UnitResult.ok => { waited := true, err := none }

/-! ## String and fingerprint lemmas -/

lemma string_append_cancel_right {a b s : String} (h : a ++ s = b ++ s) : a = b := by
  apply String.ext
  have hd : a.data ++ s.data = b.data ++ s.data := by
    have hc := congrArg String.data h
    simpa [String.data_append] using hc
  exact List.append_cancel_right hd

lemma string_append_cancel_left {s a b : String} (h : s ++ a = s ++ b) : a = b := by
  apply String.ext
  have hd : s.data ++ a.data = s.data ++ b.data := by
    have hc := congrArg String.data h
    simpa [String.data_append] using hc
  exact List.append_cancel_left hd

lemma hash_same_id_inj {s ip1 ip2 : String}
    (h : subnetMappingsHash ⟨s, ip1⟩ = subnetMappingsHash ⟨s, ip2⟩) : ip1 = ip2 := by
  unfold subnetMappingsHash at h
  exact string_append_cancel_left (string_append_cancel_right h)

lemma first_sep_split :
    ∀ (p : List Char) {q a b : List Char}, '-' ∉ p → '-' ∉ q →
      p ++ '-' :: a = q ++ '-' :: b → p = q ∧ a = b := by
  intro p
  induction p with
  | nil =>
    intro q a b _ hq h
    cases q with
    | nil => simpa using h
    | cons c cs =>
      simp only [List.nil_append, List.cons_append, List.cons.injEq] at h
      exact absurd (h.1 ▸ List.mem_cons_self c cs) (h.1 ▸ hq)
  | cons c cs ih =>
    intro q a b hp hq h
    cases q with
    | nil =>
      simp only [List.cons_append, List.nil_append, List.cons.injEq] at h
      exact absurd (h.1 ▸ List.mem_cons_self c cs) (h.1 ▸ hp)
    | cons e es =>
      simp only [List.cons_append, List.cons.injEq] at h
      have hp' : '-' ∉ cs := fun hm => hp (List.mem_cons_of_mem c hm)
      have hq' : '-' ∉ es := fun hm => hq (List.mem_cons_of_mem e hm)
      obtain ⟨hce, htail⟩ := h
      obtain ⟨hcs, hab⟩ := ih hp' hq' htail
      exact ⟨by rw [hce, hcs], hab⟩

lemma subnetMappingsHash_inj {u v : SubnetMappingAttrs}
    (hu : '-' ∉ u.ipAddressType.data) (hv : '-' ∉ v.ipAddressType.data)
    (h : subnetMappingsHash u = subnetMappingsHash v) : u = v := by
  unfold subnetMappingsHash at h
  have hd := congrArg String.data h
  have hdash : "-".data = ['-'] := rfl
  simp only [String.data_append, hdash] at hd
  have hrev := congrArg List.reverse hd
  simp only [List.reverse_append, List.reverse_cons, List.reverse_nil,
    List.nil_append, List.append_assoc, List.cons_append] at hrev
  have hrev' : u.ipAddressType.data.reverse ++ '-' :: u.subnetId.data.reverse =
      v.ipAddressType.data.reverse ++ '-' :: v.subnetId.data.reverse := by
    simpa using hrev
  have hu' : '-' ∉ u.ipAddressType.data.reverse := by simpa using hu
  have hv' : '-' ∉ v.ipAddressType.data.reverse := by simpa using hv
  obtain ⟨hip, hid⟩ := first_sep_split _ hu' hv' hrev'
  have hip' : u.ipAddressType = v.ipAddressType :=
    String.ext (by simpa using congrArg List.reverse hip)
  have hid' : u.subnetId = v.subnetId :=
    String.ext (by simpa using congrArg List.reverse hid)
  cases u; cases v
  simp only at hip' hid'
  rw [hip', hid']

lemma validIPAddressType_no_dash {s : String} (h : validIPAddressType s) :
    '-' ∉ s.data := by
  rcases h with rfl | hm
  · decide
  · simp only [ipAddressTypeValues, List.mem_cons, List.mem_singleton,
      List.not_mem_nil, or_false] at hm
    rcases hm with rfl | rfl | rfl <;> decide

/-- C6: for a single subnet_mapping element whose subnet ID is unchanged but
whose ip_address_type differs between old and new, subnetMappingsDiff returns
toRemove = [the old element's subnet ID] and toAdd = [the full new element]:
replace-by-identity, never an empty diff or an in-place modify, because the
removal fingerprint hashes the full field set. -/
theorem diff_mutable_change_is_replace (s ip1 ip2 : String)
    (hs : s ≠ "") (hip : ip1 ≠ ip2) :
    subnetMappingsDiff [⟨s, ip1⟩] [⟨s, ip2⟩] =
      ([s], expandSubnetMappings [⟨s, ip2⟩]) := by
  have h1 : subnetMappingsHash ⟨s, ip2⟩ ≠ subnetMappingsHash ⟨s, ip1⟩ :=
    fun hh => hip (hash_same_id_inj hh).symm
  have h2 : (⟨s, ip1⟩ : SubnetMappingAttrs) ≠ ⟨s, ip2⟩ := by
    intro hh
    exact hip (congrArg SubnetMappingAttrs.ipAddressType hh)
  simp [subnetMappingsDiff, expandSubnetMappingIDs, h1, h2, hs]

/-- Witness for C6 at a concrete input. -/
theorem diff_mutable_change_is_replace_witness :
    subnetMappingsDiff [⟨"subnet-abc123", "IPV4"⟩] [⟨"subnet-abc123", "DUALSTACK"⟩] =
      (["subnet-abc123"], expandSubnetMappings [⟨"subnet-abc123", "DUALSTACK"⟩]) :=
  diff_mutable_change_is_replace "subnet-abc123" "IPV4" "DUALSTACK"
    (by decide) (by decide)

/-- C7: whenever the old and new subnet_mapping collections have disjoint
subnet IDs (with schema-valid ip_address_type values and non-empty subnet
IDs), subnetMappingsDiff returns every old element's subnet ID as a removal
and every new element, in full, as an addition; in particular an empty old
collection yields only additions and an empty new collection yields only
removals. -/
theorem diff_disjoint_ids (old new : List SubnetMappingAttrs)
    (hdisj : ∀ x ∈ old, ∀ y ∈ new, x.subnetId ≠ y.subnetId)
    (hvo : ∀ x ∈ old, validIPAddressType x.ipAddressType)
    (hvn : ∀ y ∈ new, validIPAddressType y.ipAddressType)
    (hids : ∀ x ∈ old, x.subnetId ≠ "") :
    subnetMappingsDiff old new = (old.map (·.subnetId), expandSubnetMappings new) := by
  have hexp : expandSubnetMappingIDs old = old.map (·.subnetId) := by
    unfold expandSubnetMappingIDs
    rw [List.filter_eq_self.mpr]
    intro x hx
    simpa using hids x hx
  cases old with
  | nil => simp [subnetMappingsDiff]
  | cons o os =>
    cases new with
    | nil => simp [subnetMappingsDiff, hexp, expandSubnetMappings]
    | cons n ns =>
      unfold subnetMappingsDiff
      simp only [List.length_cons, Nat.succ_ne_zero, if_false]
      have hrem : ((o :: os).filter fun x =>
          !((n :: ns).any fun y => decide (subnetMappingsHash y = subnetMappingsHash x))) =
          o :: os := by
        rw [List.filter_eq_self]
        intro x hx
        simp only [Bool.not_eq_true', List.any_eq_false, decide_eq_true_eq]
        intro y hy hh
        have hxy := subnetMappingsHash_inj
          (validIPAddressType_no_dash (hvn y hy))
          (validIPAddressType_no_dash (hvo x hx)) hh
        exact hdisj x hx y hy (by rw [hxy])
      have hadd : ((n :: ns).filter fun x =>
          !((o :: os).any fun y => decide (y = x))) = n :: ns := by
        rw [List.filter_eq_self]
        intro x hx
        simp only [Bool.not_eq_true', List.any_eq_false, decide_eq_true_eq]
        intro y hy hyx
        exact hdisj y hy x hx (by rw [hyx])
      rw [hrem, hadd, hexp]

/-- Witness for C7 at a concrete input. -/
theorem diff_disjoint_ids_witness :
    subnetMappingsDiff [⟨"subnet-old1", "IPV4"⟩, ⟨"subnet-old2", ""⟩]
        [⟨"subnet-new1", "IPV6"⟩] =
      (["subnet-old1", "subnet-old2"],
        expandSubnetMappings [⟨"subnet-new1", "IPV6"⟩]) :=
  diff_disjoint_ids _ _ (by decide) (by decide) (by decide) (by decide)

/-- C10: when the describe call reports a ResourceNotFoundException and the
resource is not newly created, the read clears the cached identifier and
returns success; the same NotFound on the read immediately following
creation is surfaced as an error instead. -/
theorem read_not_found_behaviour (describe : String → DescribeResult)
    (id : String) (e : AWSError)
    (hd : describe id = DescribeResult.err e)
    (hc : e.code = ErrCodeResourceNotFoundException) :
    resourceFirewallRead describe false id = ReadOutcome.removedFromState ∧
    resourceFirewallRead describe true id =
      ReadOutcome.failed (FindResult.notFound e) := by
  have hf : FindFirewallByARN describe id = FindResult.notFound e := by
    unfold FindFirewallByARN
    rw [hd]
    simp [hc]
  constructor <;> simp [resourceFirewallRead, hf, tfresourceNotFound]

/-- Witness for C10 at a concrete input. -/
theorem read_not_found_behaviour_witness :
    resourceFirewallRead (fun _ => DescribeResult.err ⟨"ResourceNotFoundException", "gone"⟩)
        false "arn-1" = ReadOutcome.removedFromState ∧
    resourceFirewallRead (fun _ => DescribeResult.err ⟨"ResourceNotFoundException", "gone"⟩)
        true "arn-1" =
      ReadOutcome.failed (FindResult.notFound ⟨"ResourceNotFoundException", "gone"⟩) :=
  read_not_found_behaviour _ "arn-1" ⟨"ResourceNotFoundException", "gone"⟩ rfl rfl

/-- C5: the delete operation is idempotent with respect to remote absence: a
ResourceNotFoundException from the delete call returns success without
waiting; any other delete error is surfaced without waiting; on success the
handler waits with pending = Deleting and empty target, whose status probe
maps a NotFound read to absence with no error, so that disappearance
completes the wait as success. -/
theorem delete_idempotent_not_found :
    (∀ (e : AWSError) (w : UnitResult), e.code = ErrCodeResourceNotFoundException →
      resourceFirewallDelete (some e) w = { waited := false, err := none }) ∧
    (∀ (e : AWSError) (w : UnitResult), e.code ≠ ErrCodeResourceNotFoundException →
      resourceFirewallDelete (some e) w = { waited := false, err := some e }) ∧
    (∀ (e : AWSError), resourceFirewallDelete none (UnitResult.err e) =
      { waited := true, err := some e }) ∧
    resourceFirewallDelete none UnitResult.ok = { waited := true, err := none } ∧
    waitFirewallDeletedConf.pending = [FirewallStatusValueDeleting] ∧
    waitFirewallDeletedConf.target = [] ∧
    (∀ (describe : String → DescribeResult) (arn : String) (e : AWSError),
      describe arn = DescribeResult.err e →
      e.code = ErrCodeResourceNotFoundException →
      statusFirewall describe arn = (none, "", none)) ∧
    waiterStep waitFirewallDeletedConf.pending waitFirewallDeletedConf.target
      (none, "", none) = WaiterStep.succeeded none := by
  refine ⟨?_, ?_, ?_, rfl, rfl, rfl, ?_, rfl⟩
  · intro e w hc
    simp [resourceFirewallDelete, errCodeEquals, hc]
  · intro e w hc
    simp [resourceFirewallDelete, errCodeEquals, hc]
  · intro e
    simp [resourceFirewallDelete, errCodeEquals]
  · intro describe arn e hd hc
    have hf : FindFirewallByARN describe arn = FindResult.notFound e := by
      unfold FindFirewallByARN
      rw [hd]
      simp [hc]
    simp [statusFirewall, hf]

/-- Witness for C5 at a concrete input. -/
theorem delete_idempotent_not_found_witness :
    resourceFirewallDelete (some ⟨"ResourceNotFoundException", "no such firewall"⟩)
      UnitResult.ok = { waited := false, err := none } :=
  delete_idempotent_not_found.1 ⟨"ResourceNotFoundException", "no such firewall"⟩
    UnitResult.ok rfl

/-- C8: reconciling a firewall whose observed state already equals the
desired state issues zero mutation calls and performs no wait: the update
pass consists of the final read alone and surfaces no error. -/
theorem update_no_change_no_mutation (conn : Conn) (d : FirewallPlan)
    (h1 : d.deleteProtection.old = d.deleteProtection.new)
    (h2 : d.description.old = d.description.new)
    (h3 : d.encryptionConfiguration.old = d.encryptionConfiguration.new)
    (h4 : d.firewallPolicyChangeProtection.old = d.firewallPolicyChangeProtection.new)
    (h5 : d.firewallPolicyArn.old = d.firewallPolicyArn.new)
    (h6 : d.subnetChangeProtection.old = d.subnetChangeProtection.new)
    (h7 : d.subnetMapping.old = d.subnetMapping.new) :
    resourceFirewallUpdate conn d = ([Event.finalRead], none) := by
  simp [resourceFirewallUpdate, scalarPhase, thenScalar, PlanField.hasChange,
    h1, h2, h3, h4, h5, h6, h7]

/-- Witness for C8 at a concrete input. -/
theorem update_no_change_no_mutation_witness :
    resourceFirewallUpdate
      { scalarResp := fun _ t => TokenResult.ok (t ++ "x")
        associateSubnetsResp := fun _ _ => UnitResult.ok
        disassociateSubnetsResp := fun _ _ => UnitResult.ok
        waitUpdatedResp := fun _ => TokenResult.ok "w" }
      { id := "arn-1", updateToken := "t0"
        deleteProtection := ⟨false, false⟩
        description := ⟨"d", "d"⟩
        encryptionConfiguration := ⟨[], []⟩
        firewallPolicyChangeProtection := ⟨true, true⟩
        firewallPolicyArn := ⟨"p", "p"⟩
        subnetChangeProtection := ⟨true, true⟩
        subnetMapping := ⟨[⟨"subnet-1", "IPV4"⟩], [⟨"subnet-1", "IPV4"⟩]⟩ } =
      ([Event.finalRead], none) :=
  update_no_change_no_mutation _ _ rfl rfl rfl rfl rfl rfl rfl

/-! ## Trace lemmas: appending and observers -/

lemma heldAfter_append (init : String) (tr tr' : List Event) :
    heldAfter init (tr ++ tr') = heldAfter (heldAfter init tr) tr' := by
  simp [heldAfter, List.foldl_append]

lemma disciplined_append (init : String) (tr tr' : List Event) :
    disciplined init (tr ++ tr') =
      (disciplined init tr && disciplined (heldAfter init tr) tr') := by
  induction tr generalizing init with
  | nil => simp [disciplined, heldAfter]
  | cons e rest ih =>
    simp only [List.cons_append, disciplined, List.append_eq, ih, heldAfter,
      List.foldl_cons, Bool.and_assoc]

lemma mutTokens_append (tr tr' : List Event) :
    mutTokens (tr ++ tr') = mutTokens tr ++ mutTokens tr' := by
  simp [mutTokens]

lemma mutRanks_append (tr tr' : List Event) :
    mutRanks (tr ++ tr') = mutRanks tr ++ mutRanks tr' := by
  simp [mutRanks]

lemma pairwise_lt_snoc {l : List Nat} {x : Nat}
    (hp : List.Pairwise (· < ·) l) (hx : ∀ r ∈ l, r < x) :
    List.Pairwise (· < ·) (l ++ [x]) := by
  rw [List.pairwise_append]
  refine ⟨hp, List.pairwise_singleton _ _, fun a ha b hb => ?_⟩
  simp only [List.mem_singleton] at hb
  subst hb
  exact hx a ha

/-! ## C2: mutation precedence order -/

lemma thenScalar_ranks (conn : Conn) (k : ScalarMutKind) (c : Bool)
    (s : List Event × UpdStep)
    (hp : List.Pairwise (· < ·) (mutRanks s.1))
    (hlt : ∀ r ∈ mutRanks s.1, r < precedence k) :
    List.Pairwise (· < ·) (mutRanks (thenScalar conn k c s).1) ∧
    ∀ r ∈ mutRanks (thenScalar conn k c s).1, r ≤ precedence k := by
  obtain ⟨tr, st⟩ := s
  have hle : ∀ r ∈ mutRanks tr, r ≤ precedence k :=
    fun r hr => le_of_lt (hlt r hr)
  cases st with
  | fail e => exact ⟨hp, hle⟩
  | ok tok =>
    cases c with
    | false => exact ⟨hp, hle⟩
    | true =>
      simp only [thenScalar, if_true]
      cases hr : conn.scalarResp k tok with
      | ok t' =>
        constructor
        · simpa [mutRanks_append, mutRanks, mutRank] using pairwise_lt_snoc hp hlt
        · intro r hrm
          simp only [mutRanks_append, List.mem_append] at hrm
          rcases hrm with hrm | hrm
          · exact hle r hrm
          · simp only [mutRanks, mutRank, List.filterMap] at hrm
            simp only [List.mem_singleton] at hrm
            exact le_of_eq hrm
      | err e =>
        constructor
        · simpa [mutRanks_append, mutRanks, mutRank] using pairwise_lt_snoc hp hlt
        · intro r hrm
          simp only [mutRanks_append, List.mem_append] at hrm
          rcases hrm with hrm | hrm
          · exact hle r hrm
          · simp only [mutRanks, mutRank, List.filterMap] at hrm
            simp only [List.mem_singleton] at hrm
            exact le_of_eq hrm

lemma subnetRemoveStep_ranks (conn : Conn) (waitIdx : Nat) (rem : List String)
    (tr : List Event) (tok : String)
    (hp : List.Pairwise (· < ·) (mutRanks tr))
    (hlt : ∀ r ∈ mutRanks tr, r < 7) :
    List.Pairwise (· < ·) (mutRanks (subnetRemoveStep conn waitIdx rem tr tok).1) := by
  have key : List.Pairwise (· < ·) (mutRanks tr ++ [7]) := pairwise_lt_snoc hp hlt
  unfold subnetRemoveStep
  split
  · split
    · split
      · simpa [mutRanks_append, mutRanks, mutRank] using key
      · simpa [mutRanks_append, mutRanks, mutRank] using key
    · split
      · simpa [mutRanks_append, mutRanks, mutRank] using key
      · simpa [mutRanks_append, mutRanks, mutRank] using key
  · simpa [mutRanks_append, mutRanks, mutRank] using hp

lemma subnetStep_ranks (conn : Conn) (o n : List SubnetMappingAttrs)
    (tr : List Event) (tok : String)
    (hp : List.Pairwise (· < ·) (mutRanks tr))
    (hlt : ∀ r ∈ mutRanks tr, r < 6) :
    List.Pairwise (· < ·) (mutRanks (subnetStep conn o n tr tok).1) := by
  have key : List.Pairwise (· < ·) (mutRanks tr ++ [6]) := pairwise_lt_snoc hp hlt
  have key7 : ∀ r ∈ mutRanks tr ++ [6], r < 7 := by
    intro r hr
    simp only [List.mem_append, List.mem_singleton] at hr
    rcases hr with hr | hr
    · exact lt_trans (hlt r hr) (by norm_num)
    · omega
  unfold subnetStep
  rcases subnetMappingsDiff o n with ⟨rem, adds⟩
  dsimp only
  split
  · cases hresp : conn.associateSubnetsResp tok adds with
    | err e => simpa [mutRanks_append, mutRanks, mutRank] using key
    | ok =>
      cases hw : conn.waitUpdatedResp 0 with
      | err e => simpa [mutRanks_append, mutRanks, mutRank] using key
      | ok t' =>
        exact subnetRemoveStep_ranks conn 1 rem
          (tr ++ [Event.associateSubnets tok adds UnitResult.ok,
            Event.waitUpdated (TokenResult.ok t')]) t'
          (by simpa [mutRanks_append, mutRanks, mutRank] using key)
          (by
            intro r hr
            apply key7
            simpa [mutRanks_append, mutRanks, mutRank] using hr)
  · exact subnetRemoveStep_ranks conn 0 rem tr tok hp
      (fun r hr => lt_trans (hlt r hr) (by norm_num))

lemma scalarPhase_ranks (conn : Conn) (d : FirewallPlan) :
    List.Pairwise (· < ·) (mutRanks (scalarPhase conn d).1) ∧
    ∀ r ∈ mutRanks (scalarPhase conn d).1, r ≤ 5 := by
  have h1 := thenScalar_ranks conn ScalarMutKind.deleteProtection
    d.deleteProtection.hasChange ([], UpdStep.ok d.updateToken)
    (by simp [mutRanks]) (by simp [mutRanks])
  have h2 := thenScalar_ranks conn ScalarMutKind.description
    d.description.hasChange _ h1.1
    (fun r hr => lt_of_le_of_lt (h1.2 r hr) (by decide))
  have h3 := thenScalar_ranks conn ScalarMutKind.encryptionConfiguration
    d.encryptionConfiguration.hasChange _ h2.1
    (fun r hr => lt_of_le_of_lt (h2.2 r hr) (by decide))
  have h4 := thenScalar_ranks conn ScalarMutKind.policyChangeProtection
    d.firewallPolicyChangeProtection.hasChange _ h3.1
    (fun r hr => lt_of_le_of_lt (h3.2 r hr) (by decide))
  have h5 := thenScalar_ranks conn ScalarMutKind.associatePolicy
    d.firewallPolicyArn.hasChange _ h4.1
    (fun r hr => lt_of_le_of_lt (h4.2 r hr) (by decide))
  have h6 := thenScalar_ranks conn ScalarMutKind.subnetChangeProtection
    d.subnetChangeProtection.hasChange _ h5.1
    (fun r hr => lt_of_le_of_lt (h5.2 r hr) (by decide))
  unfold scalarPhase
  exact h6

/-- C2: within one update pass the mutation calls are issued in strictly
increasing precedence rank (scalar mutations 0..5 in source order, then
AssociateSubnets at rank 6, then DisassociateSubnets at rank 7); in
particular the firewall-policy change-protection mutation precedes the
policy association, the subnet change-protection mutation precedes every
subnet mutation, and subnet additions precede subnet removals. -/
theorem update_mutation_order (conn : Conn) (d : FirewallPlan) :
    List.Pairwise (· < ·) (mutRanks (resourceFirewallUpdate conn d).1) := by
  have hs := scalarPhase_ranks conn d
  unfold resourceFirewallUpdate
  rcases hsp : scalarPhase conn d with ⟨tr, st⟩
  rw [hsp] at hs
  cases st with
  | fail e => exact hs.1
  | ok tok =>
    dsimp only
    split
    · exact subnetStep_ranks _ _ _ _ _ hs.1
        (fun r hr => lt_of_le_of_lt (hs.2 r hr) (by norm_num))
    · simpa [mutRanks_append, mutRanks, mutRank] using hs.1

/-! ## C1: token discipline -/

/-- The token component of an intermediate scalar-phase state: the held token
while the pass is alive, nothing after an abort. -/
def upTail : UpdStep → List String
  | UpdStep.ok t => [t]
  | UpdStep.fail _ => []

lemma pairwise_rank_extend {rank : String → Nat} {l : List String} {a x : String}
    (hp : List.Pairwise (fun u v => rank u < rank v) (l ++ [a]))
    (hx : rank a < rank x) :
    List.Pairwise (fun u v => rank u < rank v) (l ++ [a] ++ [x]) := by
  rw [List.pairwise_append]
  refine ⟨hp, List.pairwise_singleton _ _, fun u hu v hv => ?_⟩
  simp only [List.mem_singleton] at hv
  subst hv
  simp only [List.mem_append, List.mem_singleton] at hu
  rcases hu with hu | hu
  · have h2 := (List.pairwise_append.mp hp).2.2 u hu a (by simp)
    exact lt_trans h2 hx
  · subst hu
    exact hx

lemma thenScalar_tokens (conn : Conn) (rank : String → Nat) (init : String)
    (k : ScalarMutKind) (c : Bool) (s : List Event × UpdStep)
    (hfresh : ∀ k' t t', conn.scalarResp k' t = TokenResult.ok t' → rank t < rank t')
    (hd : disciplined init s.1 = true)
    (hh : ∀ t, s.2 = UpdStep.ok t → t = heldAfter init s.1)
    (hp : List.Pairwise (fun u v => rank u < rank v) (mutTokens s.1 ++ upTail s.2)) :
    disciplined init (thenScalar conn k c s).1 = true ∧
    (∀ t, (thenScalar conn k c s).2 = UpdStep.ok t →
      t = heldAfter init (thenScalar conn k c s).1) ∧
    List.Pairwise (fun u v => rank u < rank v)
      (mutTokens (thenScalar conn k c s).1 ++ upTail (thenScalar conn k c s).2) := by
  obtain ⟨tr, st⟩ := s
  cases st with
  | fail e => exact ⟨hd, hh, hp⟩
  | ok tok =>
    have htok : tok = heldAfter init tr := hh tok rfl
    simp only [upTail] at hp
    cases c with
    | false => exact ⟨hd, hh, by simpa [upTail] using hp⟩
    | true =>
      simp only [thenScalar, if_true]
      cases hr : conn.scalarResp k tok with
      | ok t' =>
        refine ⟨?_, ?_, ?_⟩
        · rw [disciplined_append, hd]
          simp [disciplined, evTokenOk, heldNext, htok]
        · intro t ht
          cases ht
          rw [heldAfter_append]
          simp [heldAfter, heldNext]
        · have hx : rank tok < rank t' := hfresh k tok t' hr
          have h2 := pairwise_rank_extend hp hx
          simpa [mutTokens_append, mutTokens, mutToken, upTail] using h2
      | err e =>
        refine ⟨?_, ?_, ?_⟩
        · rw [disciplined_append, hd]
          simp [disciplined, evTokenOk, heldNext, htok]
        · intro t ht
          cases ht
        · simpa [mutTokens_append, mutTokens, mutToken, upTail] using hp

lemma subnetRemoveStep_tokens (conn : Conn) (rank : String → Nat) (init : String)
    (waitIdx : Nat) (rem : List String) (tr : List Event) (tok : String)
    (hd : disciplined init tr = true)
    (hh : tok = heldAfter init tr)
    (hp : List.Pairwise (fun u v => rank u < rank v) (mutTokens tr ++ [tok])) :
    disciplined init (subnetRemoveStep conn waitIdx rem tr tok).1 = true ∧
    List.Pairwise (fun u v => rank u < rank v)
      (mutTokens (subnetRemoveStep conn waitIdx rem tr tok).1) := by
  have hp0 : List.Pairwise (fun u v => rank u < rank v) (mutTokens tr) :=
    (List.pairwise_append.mp hp).1
  unfold subnetRemoveStep
  split
  · cases hresp : conn.disassociateSubnetsResp tok rem with
    | ok =>
      dsimp only
      cases hw : conn.waitUpdatedResp waitIdx with
      | ok t2 =>
        dsimp only
        constructor
        · rw [disciplined_append, hd]
          simp [disciplined, evTokenOk, heldNext, hh]
        · simpa [mutTokens_append, mutTokens, mutToken] using hp
      | err e =>
        dsimp only
        constructor
        · rw [disciplined_append, hd]
          simp [disciplined, evTokenOk, heldNext, hh]
        · simpa [mutTokens_append, mutTokens, mutToken] using hp
    | err e =>
      dsimp only
      split
      · constructor
        · rw [disciplined_append, hd]
          simp [disciplined, evTokenOk, heldNext, hh]
        · simpa [mutTokens_append, mutTokens, mutToken] using hp
      · constructor
        · rw [disciplined_append, hd]
          simp [disciplined, evTokenOk, heldNext, hh]
        · simpa [mutTokens_append, mutTokens, mutToken] using hp
  · constructor
    · rw [disciplined_append, hd]
      simp [disciplined, evTokenOk, heldNext]
    · simpa [mutTokens_append, mutTokens, mutToken] using hp0

lemma subnetStep_tokens (conn : Conn) (rank : String → Nat) (init : String)
    (o n : List SubnetMappingAttrs) (tr : List Event) (tok : String)
    (hfreshw : ∀ t ms, conn.associateSubnetsResp t ms = UnitResult.ok →
      ∀ t', conn.waitUpdatedResp 0 = TokenResult.ok t' → rank t < rank t')
    (hd : disciplined init tr = true)
    (hh : tok = heldAfter init tr)
    (hp : List.Pairwise (fun u v => rank u < rank v) (mutTokens tr ++ [tok])) :
    disciplined init (subnetStep conn o n tr tok).1 = true ∧
    List.Pairwise (fun u v => rank u < rank v)
      (mutTokens (subnetStep conn o n tr tok).1) := by
  unfold subnetStep
  rcases subnetMappingsDiff o n with ⟨rem, adds⟩
  dsimp only
  split
  · cases hresp : conn.associateSubnetsResp tok adds with
    | err e =>
      dsimp only
      constructor
      · rw [disciplined_append, hd]
        simp [disciplined, evTokenOk, heldNext, hh]
      · simpa [mutTokens_append, mutTokens, mutToken] using hp
    | ok =>
      dsimp only
      cases hw : conn.waitUpdatedResp 0 with
      | err e =>
        dsimp only
        constructor
        · rw [disciplined_append, hd]
          simp [disciplined, evTokenOk, heldNext, hh]
        · simpa [mutTokens_append, mutTokens, mutToken] using hp
      | ok t' =>
        dsimp only
        apply subnetRemoveStep_tokens conn rank init 1 rem _ t'
        · rw [disciplined_append, hd]
          simp [disciplined, evTokenOk, heldNext, hh]
        · rw [heldAfter_append]
          simp [heldAfter, heldNext]
        · have hx : rank tok < rank t' := hfreshw tok adds hresp t' hw
          have h2 := pairwise_rank_extend hp hx
          simpa [mutTokens_append, mutTokens, mutToken] using h2
  · exact subnetRemoveStep_tokens conn rank init 0 rem tr tok hd hh hp

lemma scalarPhase_tokens (conn : Conn) (rank : String → Nat) (d : FirewallPlan)
    (hfresh : ∀ k t t', conn.scalarResp k t = TokenResult.ok t' → rank t < rank t') :
    disciplined d.updateToken (scalarPhase conn d).1 = true ∧
    (∀ t, (scalarPhase conn d).2 = UpdStep.ok t →
      t = heldAfter d.updateToken (scalarPhase conn d).1) ∧
    List.Pairwise (fun u v => rank u < rank v)
      (mutTokens (scalarPhase conn d).1 ++ upTail (scalarPhase conn d).2) := by
  have h0a : disciplined d.updateToken ([] : List Event) = true := rfl
  have h0b : ∀ t, UpdStep.ok d.updateToken = UpdStep.ok t →
      t = heldAfter d.updateToken ([] : List Event) := by
    intro t ht
    cases ht
    rfl
  have h0c : List.Pairwise (fun u v => rank u < rank v)
      (mutTokens ([] : List Event) ++ upTail (UpdStep.ok d.updateToken)) := by
    simp [mutTokens, upTail]
  have h1 := thenScalar_tokens conn rank d.updateToken ScalarMutKind.deleteProtection
    d.deleteProtection.hasChange ([], UpdStep.ok d.updateToken) hfresh h0a h0b h0c
  have h2 := thenScalar_tokens conn rank d.updateToken ScalarMutKind.description
    d.description.hasChange _ hfresh h1.1 h1.2.1 h1.2.2
  have h3 := thenScalar_tokens conn rank d.updateToken ScalarMutKind.encryptionConfiguration
    d.encryptionConfiguration.hasChange _ hfresh h2.1 h2.2.1 h2.2.2
  have h4 := thenScalar_tokens conn rank d.updateToken ScalarMutKind.policyChangeProtection
    d.firewallPolicyChangeProtection.hasChange _ hfresh h3.1 h3.2.1 h3.2.2
  have h5 := thenScalar_tokens conn rank d.updateToken ScalarMutKind.associatePolicy
    d.firewallPolicyArn.hasChange _ hfresh h4.1 h4.2.1 h4.2.2
  have h6 := thenScalar_tokens conn rank d.updateToken ScalarMutKind.subnetChangeProtection
    d.subnetChangeProtection.hasChange _ hfresh h5.1 h5.2.1 h5.2.2
  unfold scalarPhase
  exact h6

/-- C1: within one update pass the reconciler never issues two mutation calls
carrying the same token value, provided the remote issues fresh tokens
(ConnFresh); moreover the trace is token-disciplined: each mutation sends the
token currently held, and a successful scalar mutation's response token (or,
after a subnet addition, the wait's re-read token) replaces the held token
before the next mutation is issued. -/
theorem update_token_discipline (conn : Conn) (d : FirewallPlan)
    (rank : String → Nat) (hfresh : ConnFresh conn rank) :
    disciplined d.updateToken (resourceFirewallUpdate conn d).1 = true ∧
    List.Pairwise (· ≠ ·) (mutTokens (resourceFirewallUpdate conn d).1) := by
  obtain ⟨hfs, hfw⟩ := hfresh
  have hs := scalarPhase_tokens conn rank d hfs
  unfold resourceFirewallUpdate
  rcases hsp : scalarPhase conn d with ⟨tr, st⟩
  rw [hsp] at hs
  have toNe : ∀ {l : List String},
      List.Pairwise (fun u v => rank u < rank v) l → List.Pairwise (· ≠ ·) l := by
    intro l hl
    refine hl.imp ?_
    intro a b hab heq
    subst heq
    exact lt_irrefl _ hab
  cases st with
  | fail e =>
    dsimp only
    refine ⟨hs.1, toNe ?_⟩
    simpa [upTail] using hs.2.2
  | ok tok =>
    have hptok : List.Pairwise (fun u v => rank u < rank v) (mutTokens tr ++ [tok]) := by
      simpa [upTail] using hs.2.2
    dsimp only
    split
    · have h2 := subnetStep_tokens conn rank d.updateToken d.subnetMapping.old
        d.subnetMapping.new tr tok hfw hs.1 (hs.2.1 tok rfl) hptok
      exact ⟨h2.1, toNe h2.2⟩
    · constructor
      · rw [disciplined_append, hs.1]
        simp [disciplined, evTokenOk]
      · refine toNe ?_
        have h3 := (List.pairwise_append.mp hptok).1
        simpa [mutTokens_append, mutTokens, mutToken] using h3

/-- A concrete fresh remote for the C1 witness: scalar mutations extend the
token by one character, the associate call accepts only short tokens, and the
wait re-reads a long token. -/
def freshConnW : Conn :=
  { scalarResp := fun _ t => TokenResult.ok (t ++ "x")
    associateSubnetsResp := fun t _ =>
      if t.length ≤ 5 then UnitResult.ok
      else UnitResult.err ⟨"InvalidTokenException", "stale token"⟩
    disassociateSubnetsResp := fun _ _ => UnitResult.ok
    waitUpdatedResp := fun _ => TokenResult.ok "tokentoken" }

/-- A concrete plan for the C1 witness: one scalar change plus a subnet
replacement. -/
def planW : FirewallPlan :=
  { id := "arn-1", updateToken := "t"
    deleteProtection := ⟨false, true⟩
    description := ⟨"d", "d"⟩
    encryptionConfiguration := ⟨[], []⟩
    firewallPolicyChangeProtection := ⟨true, true⟩
    firewallPolicyArn := ⟨"p", "p"⟩
    subnetChangeProtection := ⟨true, true⟩
    subnetMapping := ⟨[⟨"subnet-a", "IPV4"⟩], [⟨"subnet-b", "IPV4"⟩]⟩ }

/-- Witness for C1 at a concrete input. -/
theorem update_token_discipline_witness :
    disciplined planW.updateToken (resourceFirewallUpdate freshConnW planW).1 = true ∧
    List.Pairwise (· ≠ ·) (mutTokens (resourceFirewallUpdate freshConnW planW).1) :=
  update_token_discipline freshConnW planW String.length
    ⟨by
      intro k t t' h
      simp only [freshConnW] at h
      cases h
      simp only [String.length_append]
      have hx : ("x" : String).length = 1 := rfl
      omega,
     by
      intro t ms h t' h'
      simp only [freshConnW] at h h'
      cases h'
      split at h
      · have hle : t.length ≤ 5 := by assumption
        have h10 : ("tokentoken" : String).length = 10 := rfl
        omega
      · cases h⟩

/-! ## C9: failures abort the pass -/

lemma thenScalar_errs (conn : Conn) (k : ScalarMutKind) (c : Bool)
    (s : List Event × UpdStep)
    (hok : ∀ t, s.2 = UpdStep.ok t → ∀ ev ∈ s.1, evError ev = none)
    (hfail : ∀ e, s.2 = UpdStep.fail e → ∃ tr₀ ev, s.1 = tr₀ ++ [ev] ∧
      evError ev = some e ∧ isSwallowedRemoval ev = false ∧
      ∀ ev' ∈ tr₀, evError ev' = none) :
    (∀ t, (thenScalar conn k c s).2 = UpdStep.ok t →
      ∀ ev ∈ (thenScalar conn k c s).1, evError ev = none) ∧
    (∀ e, (thenScalar conn k c s).2 = UpdStep.fail e →
      ∃ tr₀ ev, (thenScalar conn k c s).1 = tr₀ ++ [ev] ∧
        evError ev = some e ∧ isSwallowedRemoval ev = false ∧
        ∀ ev' ∈ tr₀, evError ev' = none) := by
  obtain ⟨tr, st⟩ := s
  cases st with
  | fail e0 => exact ⟨hok, hfail⟩
  | ok tok =>
    cases c with
    | false => exact ⟨hok, hfail⟩
    | true =>
      simp only [thenScalar, if_true]
      cases hr : conn.scalarResp k tok with
      | ok t' =>
        dsimp only
        constructor
        · intro t _ ev hev
          rcases List.mem_append.mp hev with hev | hev
          · exact hok tok rfl ev hev
          · simp only [List.mem_singleton] at hev
            subst hev
            rfl
        · intro e he
          cases he
      | err e =>
        dsimp only
        constructor
        · intro t ht
          cases ht
        · intro e' he
          cases he
          exact ⟨tr, Event.scalarMut k tok (TokenResult.err e), rfl, rfl, rfl,
            hok tok rfl⟩

lemma scalarPhase_errs (conn : Conn) (d : FirewallPlan) :
    (∀ t, (scalarPhase conn d).2 = UpdStep.ok t →
      ∀ ev ∈ (scalarPhase conn d).1, evError ev = none) ∧
    (∀ e, (scalarPhase conn d).2 = UpdStep.fail e →
      ∃ tr₀ ev, (scalarPhase conn d).1 = tr₀ ++ [ev] ∧
        evError ev = some e ∧ isSwallowedRemoval ev = false ∧
        ∀ ev' ∈ tr₀, evError ev' = none) := by
  have h0a : ∀ t, (([], UpdStep.ok d.updateToken) :
      List Event × UpdStep).2 = UpdStep.ok t →
      ∀ ev ∈ (([] : List Event)), evError ev = none := by
    intro t _ ev hev
    cases hev
  have h0b : ∀ e, (([], UpdStep.ok d.updateToken) :
      List Event × UpdStep).2 = UpdStep.fail e →
      ∃ tr₀ ev, ([] : List Event) = tr₀ ++ [ev] ∧
        evError ev = some e ∧ isSwallowedRemoval ev = false ∧
        ∀ ev' ∈ tr₀, evError ev' = none := by
    intro e he
    cases he
  have h1 := thenScalar_errs conn ScalarMutKind.deleteProtection
    d.deleteProtection.hasChange ([], UpdStep.ok d.updateToken) h0a h0b
  have h2 := thenScalar_errs conn ScalarMutKind.description
    d.description.hasChange _ h1.1 h1.2
  have h3 := thenScalar_errs conn ScalarMutKind.encryptionConfiguration
    d.encryptionConfiguration.hasChange _ h2.1 h2.2
  have h4 := thenScalar_errs conn ScalarMutKind.policyChangeProtection
    d.firewallPolicyChangeProtection.hasChange _ h3.1 h3.2
  have h5 := thenScalar_errs conn ScalarMutKind.associatePolicy
    d.firewallPolicyArn.hasChange _ h4.1 h4.2
  have h6 := thenScalar_errs conn ScalarMutKind.subnetChangeProtection
    d.subnetChangeProtection.hasChange _ h5.1 h5.2
  unfold scalarPhase
  exact h6

lemma subnetRemoveStep_errs (conn : Conn) (waitIdx : Nat) (rem : List String)
    (tr : List Event) (tok : String)
    (hclean : ∀ ev ∈ tr, evError ev = none) :
    ((subnetRemoveStep conn waitIdx rem tr tok).2 = none →
      ∀ ev ∈ (subnetRemoveStep conn waitIdx rem tr tok).1,
        evError ev = none ∨ isSwallowedRemoval ev = true) ∧
    (∀ e, (subnetRemoveStep conn waitIdx rem tr tok).2 = some e →
      ∃ tr₀ ev, (subnetRemoveStep conn waitIdx rem tr tok).1 = tr₀ ++ [ev] ∧
        (evError ev = some e ∧ isSwallowedRemoval ev = false ∨
          ev = Event.waitUpdated (TokenResult.err e)) ∧
        ∀ ev' ∈ tr₀, evError ev' = none) := by
  unfold subnetRemoveStep
  split
  · cases hresp : conn.disassociateSubnetsResp tok rem with
    | ok =>
      dsimp only
      cases hw : conn.waitUpdatedResp waitIdx with
      | ok t2 =>
        dsimp only
        constructor
        · intro _ ev hev
          simp only [List.mem_append, List.mem_cons, List.mem_singleton,
            List.not_mem_nil, or_false] at hev
          rcases hev with hev | hev | hev | hev
          · exact Or.inl (hclean ev hev)
          · subst hev; exact Or.inl rfl
          · subst hev; exact Or.inl rfl
          · subst hev; exact Or.inl rfl
        · intro e he
          cases he
      | err e =>
        dsimp only
        constructor
        · intro h
          cases h
        · intro e' he
          cases he
          refine ⟨tr ++ [Event.disassociateSubnets tok rem UnitResult.ok],
            Event.waitUpdated (TokenResult.err e), by simp, Or.inr rfl, ?_⟩
          intro ev' hev'
          rcases List.mem_append.mp hev' with hev' | hev'
          · exact hclean ev' hev'
          · simp only [List.mem_singleton] at hev'
            subst hev'
            rfl
    | err e =>
      dsimp only
      split
      next hsw =>
        constructor
        · intro _ ev hev
          simp only [List.mem_append, List.mem_cons, List.mem_singleton,
            List.not_mem_nil, or_false] at hev
          rcases hev with hev | hev | hev
          · exact Or.inl (hclean ev hev)
          · subst hev
            refine Or.inr ?_
            simpa [isSwallowedRemoval] using hsw
          · subst hev; exact Or.inl rfl
        · intro e' he
          cases he
      next hsw =>
        constructor
        · intro h
          cases h
        · intro e' he
          cases he
          refine ⟨tr, Event.disassociateSubnets tok rem (UnitResult.err e), rfl,
            Or.inl ⟨rfl, ?_⟩, hclean⟩
          simpa [isSwallowedRemoval] using hsw
  · constructor
    · intro _ ev hev
      rcases List.mem_append.mp hev with hev | hev
      · exact Or.inl (hclean ev hev)
      · simp only [List.mem_singleton] at hev
        subst hev
        exact Or.inl rfl
    · intro e he
      cases he

lemma subnetStep_errs (conn : Conn) (o n : List SubnetMappingAttrs)
    (tr : List Event) (tok : String)
    (hclean : ∀ ev ∈ tr, evError ev = none) :
    ((subnetStep conn o n tr tok).2 = none →
      ∀ ev ∈ (subnetStep conn o n tr tok).1,
        evError ev = none ∨ isSwallowedRemoval ev = true) ∧
    (∀ e, (subnetStep conn o n tr tok).2 = some e →
      ∃ tr₀ ev, (subnetStep conn o n tr tok).1 = tr₀ ++ [ev] ∧
        (evError ev = some e ∧ isSwallowedRemoval ev = false ∨
          ev = Event.waitUpdated (TokenResult.err e)) ∧
        ∀ ev' ∈ tr₀, evError ev' = none) := by
  unfold subnetStep
  rcases subnetMappingsDiff o n with ⟨rem, adds⟩
  dsimp only
  split
  · cases hresp : conn.associateSubnetsResp tok adds with
    | err e =>
      dsimp only
      constructor
      · intro h
        cases h
      · intro e' he
        cases he
        exact ⟨tr, Event.associateSubnets tok adds (UnitResult.err e), rfl,
          Or.inl ⟨rfl, rfl⟩, hclean⟩
    | ok =>
      dsimp only
      cases hw : conn.waitUpdatedResp 0 with
      | err e =>
        dsimp only
        constructor
        · intro h
          cases h
        · intro e' he
          cases he
          refine ⟨tr ++ [Event.associateSubnets tok adds UnitResult.ok],
            Event.waitUpdated (TokenResult.err e), by simp, Or.inr rfl, ?_⟩
          intro ev' hev'
          rcases List.mem_append.mp hev' with hev' | hev'
          · exact hclean ev' hev'
          · simp only [List.mem_singleton] at hev'
            subst hev'
            rfl
      | ok t' =>
        dsimp only
        apply subnetRemoveStep_errs
        intro ev hev
        simp only [List.mem_append, List.mem_cons, List.mem_singleton,
          List.not_mem_nil, or_false] at hev
        rcases hev with hev | hev | hev
        · exact hclean ev hev
        · subst hev; rfl
        · subst hev; rfl
  · exact subnetRemoveStep_errs conn 0 rem tr tok hclean

lemma update_errs (conn : Conn) (d : FirewallPlan) :
    ((resourceFirewallUpdate conn d).2 = none →
      ∀ ev ∈ (resourceFirewallUpdate conn d).1,
        evError ev = none ∨ isSwallowedRemoval ev = true) ∧
    (∀ e, (resourceFirewallUpdate conn d).2 = some e →
      ∃ tr₀ ev, (resourceFirewallUpdate conn d).1 = tr₀ ++ [ev] ∧
        (evError ev = some e ∧ isSwallowedRemoval ev = false ∨
          ev = Event.waitUpdated (TokenResult.err e)) ∧
        ∀ ev' ∈ tr₀, evError ev' = none) := by
  have hs := scalarPhase_errs conn d
  unfold resourceFirewallUpdate
  rcases hsp : scalarPhase conn d with ⟨tr, st⟩
  rw [hsp] at hs
  cases st with
  | fail e =>
    dsimp only
    constructor
    · intro h
      cases h
    · intro e' he
      cases he
      obtain ⟨tr₀, ev, htr, hev, hsw, hcl⟩ := hs.2 e rfl
      exact ⟨tr₀, ev, htr, Or.inl ⟨hev, hsw⟩, hcl⟩
  | ok tok =>
    have hclean : ∀ ev ∈ tr, evError ev = none := hs.1 tok rfl
    dsimp only
    split
    · exact subnetStep_errs conn d.subnetMapping.old d.subnetMapping.new tr tok hclean
    · constructor
      · intro _ ev hev
        rcases List.mem_append.mp hev with hev | hev
        · exact Or.inl (hclean ev hev)
        · simp only [List.mem_singleton] at hev
          subst hev
          exact Or.inl rfl
      · intro e he
        cases he

/-- C9: a mutation-call failure other than the swallowed "inaccessible"
subnet removal aborts the pass immediately: the failing mutation is the last
event of the trace (no subsequent mutation is issued and nothing is rolled
back) and its error is the error the pass surfaces. -/
theorem update_failure_aborts (conn : Conn) (d : FirewallPlan)
    (tr₀ : List Event) (ev : Event) (tr₁ : List Event) (e : AWSError)
    (htr : (resourceFirewallUpdate conn d).1 = tr₀ ++ ev :: tr₁)
    (hfail : evError ev = some e)
    (hns : isSwallowedRemoval ev = false) :
    tr₁ = [] ∧ (resourceFirewallUpdate conn d).2 = some e := by
  rcases hr : (resourceFirewallUpdate conn d).2 with _ | e'
  · exfalso
    have hall := (update_errs conn d).1 hr
    have hmem : ev ∈ (resourceFirewallUpdate conn d).1 := by
      rw [htr]
      exact List.mem_append.mpr (Or.inr (List.mem_cons_self ev tr₁))
    rcases hall ev hmem with hnone | hsw
    · rw [hfail] at hnone
      cases hnone
    · rw [hns] at hsw
      cases hsw
  · obtain ⟨tr₀', ev', htr', hev', hclean'⟩ := (update_errs conn d).2 e' hr
    rw [htr] at htr'
    have hlen := congrArg List.length htr'
    simp only [List.length_append, List.length_cons, List.length_nil] at hlen
    have hnotlt : ¬ tr₀.length < tr₀'.length := by
      intro hlt
      have h1 : (tr₀ ++ ev :: tr₁)[tr₀.length]? = some ev := by
        rw [List.getElem?_append_right (le_refl _)]
        simp
      have h2 : (tr₀' ++ [ev'])[tr₀.length]? = tr₀'[tr₀.length]? := by
        rw [List.getElem?_append]
        exact if_pos hlt
      rw [htr'] at h1
      rw [h2] at h1
      have hmem' : ev ∈ tr₀' := List.getElem?_mem h1
      have hc := hclean' ev hmem'
      rw [hfail] at hc
      cases hc
    have htr1 : tr₁ = [] := by
      have hl0 : tr₁.length = 0 := by omega
      exact List.length_eq_zero.mp hl0
    subst htr1
    have hlens : tr₀.length = tr₀'.length := by omega
    obtain ⟨hpre, hsuf⟩ := List.append_inj htr' hlens
    have hevev : ev = ev' := by
      simpa using hsuf
    subst hevev
    rcases hev' with ⟨hev1, hev2⟩ | hev3
    · rw [hfail] at hev1
      have hee : e = e' := Option.some.inj hev1
      subst hee
      exact ⟨rfl, rfl⟩
    · rw [hev3] at hfail
      simp [evError] at hfail

/-- A remote for the C9 witness whose description mutation fails. -/
def failConnW : Conn :=
  { scalarResp := fun k t =>
      if k = ScalarMutKind.description then
        TokenResult.err ⟨"InternalServerError", "boom"⟩
      else TokenResult.ok (t ++ "x")
    associateSubnetsResp := fun _ _ => UnitResult.ok
    disassociateSubnetsResp := fun _ _ => UnitResult.ok
    waitUpdatedResp := fun _ => TokenResult.ok "w" }

/-- A plan for the C9 witness: delete protection and description change. -/
def failPlanW : FirewallPlan :=
  { id := "arn-1", updateToken := "t"
    deleteProtection := ⟨false, true⟩
    description := ⟨"a", "b"⟩
    encryptionConfiguration := ⟨[], []⟩
    firewallPolicyChangeProtection := ⟨true, true⟩
    firewallPolicyArn := ⟨"p", "p"⟩
    subnetChangeProtection := ⟨true, true⟩
    subnetMapping := ⟨[⟨"subnet-a", "IPV4"⟩], [⟨"subnet-a", "IPV4"⟩]⟩ }

/-- Witness for C9 at a concrete input. -/
theorem update_failure_aborts_witness :
    ([] : List Event) = [] ∧
    (resourceFirewallUpdate failConnW failPlanW).2 =
      some ⟨"InternalServerError", "boom"⟩ :=
  update_failure_aborts failConnW failPlanW
    [Event.scalarMut ScalarMutKind.deleteProtection "t" (TokenResult.ok "tx")]
    (Event.scalarMut ScalarMutKind.description "tx"
      (TokenResult.err ⟨"InternalServerError", "boom"⟩))
    [] ⟨"InternalServerError", "boom"⟩ (by decide) rfl rfl

/-! ## C3 and C4: the subnet block -/

lemma thenScalar_scalar (conn : Conn) (k : ScalarMutKind) (c : Bool)
    (s : List Event × UpdStep)
    (h : ∀ ev ∈ s.1, isScalarEv ev = true) :
    ∀ ev ∈ (thenScalar conn k c s).1, isScalarEv ev = true := by
  obtain ⟨tr, st⟩ := s
  cases st with
  | fail e => exact h
  | ok tok =>
    cases c with
    | false => exact h
    | true =>
      simp only [thenScalar, if_true]
      cases hr : conn.scalarResp k tok with
      | ok t' =>
        dsimp only
        intro ev hev
        rcases List.mem_append.mp hev with hev | hev
        · exact h ev hev
        · simp only [List.mem_singleton] at hev
          subst hev
          rfl
      | err e =>
        dsimp only
        intro ev hev
        rcases List.mem_append.mp hev with hev | hev
        · exact h ev hev
        · simp only [List.mem_singleton] at hev
          subst hev
          rfl

lemma scalarPhase_scalar (conn : Conn) (d : FirewallPlan) :
    ∀ ev ∈ (scalarPhase conn d).1, isScalarEv ev = true := by
  have h0 : ∀ ev ∈ (([] : List Event)), isScalarEv ev = true := by
    intro ev hev
    cases hev
  have h1 := thenScalar_scalar conn ScalarMutKind.deleteProtection
    d.deleteProtection.hasChange ([], UpdStep.ok d.updateToken) h0
  have h2 := thenScalar_scalar conn ScalarMutKind.description
    d.description.hasChange _ h1
  have h3 := thenScalar_scalar conn ScalarMutKind.encryptionConfiguration
    d.encryptionConfiguration.hasChange _ h2
  have h4 := thenScalar_scalar conn ScalarMutKind.policyChangeProtection
    d.firewallPolicyChangeProtection.hasChange _ h3
  have h5 := thenScalar_scalar conn ScalarMutKind.associatePolicy
    d.firewallPolicyArn.hasChange _ h4
  have h6 := thenScalar_scalar conn ScalarMutKind.subnetChangeProtection
    d.subnetChangeProtection.hasChange _ h5
  unfold scalarPhase
  exact h6

lemma subnetRemoveStep_mem (conn : Conn) (waitIdx : Nat) (rem : List String)
    (tr : List Event) (tok : String) (ev : Event)
    (hmem : ev ∈ (subnetRemoveStep conn waitIdx rem tr tok).1) :
    ev ∈ tr ∨ (∃ r, ev = Event.disassociateSubnets tok rem r) ∨
      (∃ r, ev = Event.waitUpdated r) ∨ ev = Event.finalRead := by
  revert hmem
  unfold subnetRemoveStep
  split
  · cases hresp : conn.disassociateSubnetsResp tok rem with
    | ok =>
      dsimp only
      cases hw : conn.waitUpdatedResp waitIdx with
      | ok t2 =>
        dsimp only
        intro hmem
        simp only [List.mem_append, List.mem_cons, List.mem_singleton,
          List.not_mem_nil, or_false] at hmem
        rcases hmem with h | h | h | h
        · exact Or.inl h
        · exact Or.inr (Or.inl ⟨_, h⟩)
        · exact Or.inr (Or.inr (Or.inl ⟨_, h⟩))
        · exact Or.inr (Or.inr (Or.inr h))
      | err e =>
        dsimp only
        intro hmem
        simp only [List.mem_append, List.mem_cons, List.mem_singleton,
          List.not_mem_nil, or_false] at hmem
        rcases hmem with h | h | h
        · exact Or.inl h
        · exact Or.inr (Or.inl ⟨_, h⟩)
        · exact Or.inr (Or.inr (Or.inl ⟨_, h⟩))
    | err e =>
      dsimp only
      split
      · intro hmem
        simp only [List.mem_append, List.mem_cons, List.mem_singleton,
          List.not_mem_nil, or_false] at hmem
        rcases hmem with h | h | h
        · exact Or.inl h
        · exact Or.inr (Or.inl ⟨_, h⟩)
        · exact Or.inr (Or.inr (Or.inr h))
      · intro hmem
        simp only [List.mem_append, List.mem_singleton] at hmem
        rcases hmem with h | h
        · exact Or.inl h
        · exact Or.inr (Or.inl ⟨_, h⟩)
  · intro hmem
    simp only [List.mem_append, List.mem_singleton] at hmem
    rcases hmem with h | h
    · exact Or.inl h
    · exact Or.inr (Or.inr (Or.inr h))

lemma subnetRemoveStep_prefix (conn : Conn) (waitIdx : Nat) (rem : List String)
    (tr : List Event) (tok : String) :
    ∃ ext, (subnetRemoveStep conn waitIdx rem tr tok).1 = tr ++ ext := by
  unfold subnetRemoveStep
  split
  · cases hresp : conn.disassociateSubnetsResp tok rem with
    | ok =>
      dsimp only
      cases hw : conn.waitUpdatedResp waitIdx with
      | ok t2 => exact ⟨_, rfl⟩
      | err e => exact ⟨_, rfl⟩
    | err e =>
      dsimp only
      split
      · exact ⟨_, rfl⟩
      · exact ⟨_, rfl⟩
  · exact ⟨_, rfl⟩

lemma subnetRemoveStep_disassoc_token (conn : Conn) (waitIdx : Nat)
    (rem : List String) (tr : List Event) (tok : String)
    (t' : String) (ids : List String) (r : UnitResult)
    (hno : ∀ (a : String) (b : List String) (c : UnitResult),
      Event.disassociateSubnets a b c ∉ tr)
    (hmem : Event.disassociateSubnets t' ids r ∈
      (subnetRemoveStep conn waitIdx rem tr tok).1) :
    t' = tok := by
  rcases subnetRemoveStep_mem conn waitIdx rem tr tok _ hmem with h | ⟨r', h⟩ | ⟨r', h⟩ | h
  · exact absurd h (hno _ _ _)
  · simp only [Event.disassociateSubnets.injEq] at h
    exact h.1
  · cases h
  · cases h

lemma subnetRemoveStep_disassoc_err (conn : Conn) (waitIdx : Nat)
    (rem : List String) (tr : List Event) (tok : String)
    (t : String) (ids : List String) (e : AWSError)
    (hno : ∀ (a : String) (b : List String) (c : UnitResult),
      Event.disassociateSubnets a b c ∉ tr)
    (hmem : Event.disassociateSubnets t ids (UnitResult.err e) ∈
      (subnetRemoveStep conn waitIdx rem tr tok).1) :
    (errMessageContains e ErrCodeInvalidRequestException "inaccessible" = true →
      (subnetRemoveStep conn waitIdx rem tr tok).2 = none ∧
      Event.finalRead ∈ (subnetRemoveStep conn waitIdx rem tr tok).1) ∧
    (errMessageContains e ErrCodeInvalidRequestException "inaccessible" = false →
      (subnetRemoveStep conn waitIdx rem tr tok).2 = some e) := by
  revert hmem
  unfold subnetRemoveStep
  split
  · cases hresp : conn.disassociateSubnetsResp tok rem with
    | ok =>
      dsimp only
      cases hw : conn.waitUpdatedResp waitIdx with
      | ok t2 =>
        dsimp only
        intro hmem
        simp only [List.mem_append, List.mem_cons, List.mem_singleton,
          List.not_mem_nil, or_false, Event.disassociateSubnets.injEq,
          reduceCtorEq, and_false, false_or, or_false] at hmem
        exact absurd hmem (hno _ _ _)
      | err e2 =>
        dsimp only
        intro hmem
        simp only [List.mem_append, List.mem_cons, List.mem_singleton,
          List.not_mem_nil, or_false, Event.disassociateSubnets.injEq,
          reduceCtorEq, and_false, false_or, or_false] at hmem
        exact absurd hmem (hno _ _ _)
    | err e2 =>
      dsimp only
      split
      next hsw =>
        intro hmem
        simp only [List.mem_append, List.mem_cons, List.mem_singleton,
          List.not_mem_nil, or_false, Event.disassociateSubnets.injEq,
          UnitResult.err.injEq] at hmem
        rcases hmem with hmem | ⟨_, _, rfl⟩ | hmem
        · exact absurd hmem (hno _ _ _)
        · exact ⟨fun _ => ⟨rfl, by simp⟩, fun hf => by rw [hf] at hsw; cases hsw⟩
        · cases hmem
      next hsw =>
        intro hmem
        simp only [List.mem_append, List.mem_singleton,
          Event.disassociateSubnets.injEq, UnitResult.err.injEq] at hmem
        rcases hmem with hmem | ⟨_, _, rfl⟩
        · exact absurd hmem (hno _ _ _)
        · refine ⟨fun ht => ?_, fun _ => rfl⟩
          rw [ht] at hsw
          exact absurd rfl hsw
  · intro hmem
    simp only [List.mem_append, List.mem_singleton, reduceCtorEq, or_false] at hmem
    exact absurd hmem (hno _ _ _)

lemma subnetStep_disassoc_err (conn : Conn) (o n : List SubnetMappingAttrs)
    (tr : List Event) (tok : String)
    (t : String) (ids : List String) (e : AWSError)
    (hno : ∀ (a : String) (b : List String) (c : UnitResult),
      Event.disassociateSubnets a b c ∉ tr)
    (hmem : Event.disassociateSubnets t ids (UnitResult.err e) ∈
      (subnetStep conn o n tr tok).1) :
    (errMessageContains e ErrCodeInvalidRequestException "inaccessible" = true →
      (subnetStep conn o n tr tok).2 = none ∧
      Event.finalRead ∈ (subnetStep conn o n tr tok).1) ∧
    (errMessageContains e ErrCodeInvalidRequestException "inaccessible" = false →
      (subnetStep conn o n tr tok).2 = some e) := by
  revert hmem
  unfold subnetStep
  rcases subnetMappingsDiff o n with ⟨rem, adds⟩
  dsimp only
  split
  · cases hresp : conn.associateSubnetsResp tok adds with
    | err e2 =>
      intro hmem
      simp only [List.mem_append, List.mem_singleton, reduceCtorEq, or_false] at hmem
      exact absurd hmem (hno _ _ _)
    | ok =>
      cases hw : conn.waitUpdatedResp 0 with
      | err e2 =>
        intro hmem
        simp only [List.mem_append, List.mem_cons, List.mem_singleton,
          List.not_mem_nil, or_false, reduceCtorEq, false_or] at hmem
        exact absurd hmem (hno _ _ _)
      | ok t' =>
        intro hmem
        apply subnetRemoveStep_disassoc_err conn 1 rem _ t' t ids e ?_ hmem
        intro a b c hc
        rcases List.mem_append.mp hc with hc | hc
        · exact hno a b c hc
        · simp at hc
  · intro hmem
    exact subnetRemoveStep_disassoc_err conn 0 rem tr tok t ids e hno hmem

/-- C4: a DisassociateSubnets failure whose code is InvalidRequestException
with a message containing "inaccessible" is swallowed as soft success — the
pass surfaces no error from the removal and continues to the final read —
while every other removal failure is surfaced as the pass's error. -/
theorem update_removal_inaccessible (conn : Conn) (d : FirewallPlan)
    (t : String) (ids : List String) (e : AWSError)
    (hmem : Event.disassociateSubnets t ids (UnitResult.err e) ∈
      (resourceFirewallUpdate conn d).1) :
    (errMessageContains e ErrCodeInvalidRequestException "inaccessible" = true →
      (resourceFirewallUpdate conn d).2 = none ∧
      Event.finalRead ∈ (resourceFirewallUpdate conn d).1) ∧
    (errMessageContains e ErrCodeInvalidRequestException "inaccessible" = false →
      (resourceFirewallUpdate conn d).2 = some e) := by
  have hscal := scalarPhase_scalar conn d
  revert hmem
  unfold resourceFirewallUpdate
  rcases hsp : scalarPhase conn d with ⟨tr, st⟩
  rw [hsp] at hscal
  have hno : ∀ (a : String) (b : List String) (c : UnitResult),
      Event.disassociateSubnets a b c ∉ tr := by
    intro a b c hc
    have hs := hscal _ hc
    simp [isScalarEv] at hs
  cases st with
  | fail e0 =>
    dsimp only
    intro hmem
    exact absurd hmem (hno _ _ _)
  | ok tok =>
    dsimp only
    split
    · intro hmem
      exact subnetStep_disassoc_err conn _ _ tr tok t ids e hno hmem
    · intro hmem
      simp only [List.mem_append, List.mem_singleton, reduceCtorEq, or_false] at hmem
      exact absurd hmem (hno _ _ _)

/-- A remote for the C4 witness: removal rejected as inaccessible. -/
def inaccessibleConnW : Conn :=
  { scalarResp := fun _ t => TokenResult.ok (t ++ "x")
    associateSubnetsResp := fun _ _ => UnitResult.ok
    disassociateSubnetsResp := fun _ _ =>
      UnitResult.err ⟨"InvalidRequestException", "subnet is inaccessible"⟩
    waitUpdatedResp := fun _ => TokenResult.ok "w" }

/-- A plan for the C4 witness: one subnet removal, nothing else. -/
def removePlanW : FirewallPlan :=
  { id := "arn-1", updateToken := "t"
    deleteProtection := ⟨false, false⟩
    description := ⟨"d", "d"⟩
    encryptionConfiguration := ⟨[], []⟩
    firewallPolicyChangeProtection := ⟨true, true⟩
    firewallPolicyArn := ⟨"p", "p"⟩
    subnetChangeProtection := ⟨true, true⟩
    subnetMapping := ⟨[⟨"subnet-a", "IPV4"⟩, ⟨"subnet-b", "IPV4"⟩],
      [⟨"subnet-a", "IPV4"⟩]⟩ }

/-- Witness for C4 at a concrete input. -/
theorem update_removal_inaccessible_witness :
    (resourceFirewallUpdate inaccessibleConnW removePlanW).2 = none ∧
    Event.finalRead ∈ (resourceFirewallUpdate inaccessibleConnW removePlanW).1 :=
  (update_removal_inaccessible inaccessibleConnW removePlanW "t" ["subnet-b"]
    ⟨"InvalidRequestException", "subnet is inaccessible"⟩ (by decide)).1 (by decide)

lemma subnetStep_assoc_wait (conn : Conn) (o n : List SubnetMappingAttrs)
    (tr : List Event) (tok : String)
    (hscal : ∀ ev ∈ tr, isScalarEv ev = true)
    (t : String) (ms : List SubnetMapping) (t' : String) (ids : List String)
    (r : UnitResult)
    (hassoc : Event.associateSubnets t ms UnitResult.ok ∈ (subnetStep conn o n tr tok).1)
    (hdis : Event.disassociateSubnets t' ids r ∈ (subnetStep conn o n tr tok).1) :
    conn.waitUpdatedResp 0 = TokenResult.ok t' ∧
    Event.waitUpdated (TokenResult.ok t') ∈ (subnetStep conn o n tr tok).1 := by
  have hnoassoc : ∀ (a : String) (b : List SubnetMapping) (c : UnitResult),
      Event.associateSubnets a b c ∉ tr := by
    intro a b c hc
    have hs := hscal _ hc
    simp [isScalarEv] at hs
  have hnodis : ∀ (a : String) (b : List String) (c : UnitResult),
      Event.disassociateSubnets a b c ∉ tr := by
    intro a b c hc
    have hs := hscal _ hc
    simp [isScalarEv] at hs
  revert hassoc hdis
  unfold subnetStep
  rcases subnetMappingsDiff o n with ⟨rem, adds⟩
  dsimp only
  split
  · cases hresp : conn.associateSubnetsResp tok adds with
    | err e =>
      dsimp only
      intro hassoc hdis
      simp only [List.mem_append, List.mem_singleton, Event.associateSubnets.injEq,
        reduceCtorEq, and_false, or_false] at hassoc
      exact absurd hassoc (hnoassoc _ _ _)
    | ok =>
      dsimp only
      cases hw : conn.waitUpdatedResp 0 with
      | err e =>
        dsimp only
        intro hassoc hdis
        simp only [List.mem_append, List.mem_cons, List.mem_singleton,
          List.not_mem_nil, or_false, reduceCtorEq, false_or] at hdis
        exact absurd hdis (hnodis _ _ _)
      | ok t2 =>
        dsimp only
        intro hassoc hdis
        have hno2 : ∀ (a : String) (b : List String) (c : UnitResult),
            Event.disassociateSubnets a b c ∉
              tr ++ [Event.associateSubnets tok adds UnitResult.ok,
                Event.waitUpdated (TokenResult.ok t2)] := by
          intro a b c hc
          rcases List.mem_append.mp hc with hc | hc
          · exact hnodis a b c hc
          · simp at hc
        have ht' := subnetRemoveStep_disassoc_token conn 1 rem _ t2 t' ids r hno2 hdis
        subst ht'
        refine ⟨rfl, ?_⟩
        obtain ⟨ext, hext⟩ := subnetRemoveStep_prefix conn 1 rem
          (tr ++ [Event.associateSubnets tok adds UnitResult.ok,
            Event.waitUpdated (TokenResult.ok t')]) t'
        rw [hext]
        refine List.mem_append.mpr (Or.inl ?_)
        simp
  · intro hassoc hdis
    rcases subnetRemoveStep_mem conn 0 rem tr tok _ hassoc with h | ⟨r', h⟩ | ⟨r', h⟩ | h
    · exact absurd h (hnoassoc _ _ _)
    · cases h
    · cases h
    · cases h

/-- C3: after a successful AssociateSubnets the pass does not use the
addition response's token: when the trace contains a successful subnet
addition and any subnet removal, the removal's token is exactly the token
re-read by waitFirewallUpdated (whose wait event is in the trace), the wait
polls Provisioning to Ready, and this update wait has a 30 second initial
delay, unlike the create and delete waits which have none. -/
theorem update_add_then_wait_token (conn : Conn) (d : FirewallPlan) :
    (∀ (t : String) (ms : List SubnetMapping) (t' : String) (ids : List String)
        (r : UnitResult),
      Event.associateSubnets t ms UnitResult.ok ∈ (resourceFirewallUpdate conn d).1 →
      Event.disassociateSubnets t' ids r ∈ (resourceFirewallUpdate conn d).1 →
      conn.waitUpdatedResp 0 = TokenResult.ok t' ∧
      Event.waitUpdated (TokenResult.ok t') ∈ (resourceFirewallUpdate conn d).1) ∧
    waitFirewallUpdatedConf.delaySeconds = 30 ∧
    waitFirewallCreatedConf.delaySeconds = 0 ∧
    waitFirewallDeletedConf.delaySeconds = 0 ∧
    waitFirewallUpdatedConf.pending = [FirewallStatusValueProvisioning] ∧
    waitFirewallUpdatedConf.target = [FirewallStatusValueReady] := by
  refine ⟨?_, rfl, rfl, rfl, rfl, rfl⟩
  have hscal := scalarPhase_scalar conn d
  intro t ms t' ids r
  unfold resourceFirewallUpdate
  rcases hsp : scalarPhase conn d with ⟨tr, st⟩
  rw [hsp] at hscal
  cases st with
  | fail e =>
    dsimp only
    intro hassoc hdis
    have hs := hscal _ hassoc
    simp [isScalarEv] at hs
  | ok tok =>
    dsimp only
    split
    · exact subnetStep_assoc_wait conn _ _ tr tok hscal t ms t' ids r
    · intro hassoc hdis
      rcases List.mem_append.mp hassoc with h | h
      · have hs := hscal _ h
        simp [isScalarEv] at hs
      · simp at h

/-- A remote for the C3 witness. -/
def c3Conn : Conn :=
  { scalarResp := fun _ t => TokenResult.ok (t ++ "x")
    associateSubnetsResp := fun _ _ => UnitResult.ok
    disassociateSubnetsResp := fun _ _ => UnitResult.ok
    waitUpdatedResp := fun _ => TokenResult.ok "w" }

/-- A plan for the C3 witness: one subnet replaced by another. -/
def c3Plan : FirewallPlan :=
  { id := "arn-1", updateToken := "t"
    deleteProtection := ⟨false, false⟩
    description := ⟨"d", "d"⟩
    encryptionConfiguration := ⟨[], []⟩
    firewallPolicyChangeProtection := ⟨true, true⟩
    firewallPolicyArn := ⟨"p", "p"⟩
    subnetChangeProtection := ⟨true, true⟩
    subnetMapping := ⟨[⟨"subnet-a", "IPV4"⟩], [⟨"subnet-b", "IPV4"⟩]⟩ }

/-- Witness for C3 at a concrete input. -/
theorem update_add_then_wait_token_witness :
    c3Conn.waitUpdatedResp 0 = TokenResult.ok "w" ∧
    Event.waitUpdated (TokenResult.ok "w") ∈ (resourceFirewallUpdate c3Conn c3Plan).1 :=
  (update_add_then_wait_token c3Conn c3Plan).1 "t"
    [⟨"subnet-b", some "IPV4"⟩] "w" ["subnet-a"] UnitResult.ok
    (by decide) (by decide)

end NetworkFirewall
